import Mathlib

/-!
Verification of the career-page discovery tool (`career_page_url_finder.py`)
and the job-board scraping tool (`job_scraper.py`).

Strings from the Python source are modelled as `List Char`; the browser
(playwright) is modelled by an explicit environment describing the outcome of
every navigation / DOM operation the code performs; Python exceptions are
modelled with `Except Unit` (strategy-internal `try`/`except` blocks become
explicit matches on those results).
-/

set_option autoImplicit false

namespace Ari

/-- Coerce a Lean string literal to the `List Char` representation. -/
def ofStr (s : String) : List Char := s.data

/-- Lower-case every character (model of Python `str.lower()` / `re.I`). -/
def lowerL (s : List Char) : List Char := s.map Char.toLower

/-- `isPre p s` holds when `p` is an initial segment of `s`
(model of Python `str.startswith`). -/
def isPre : List Char → List Char → Bool
  | [], _ => true
  | _ :: _, [] => false
  | p :: ps, c :: cs => p == c && isPre ps cs

/-- Drop a literal initial segment, failing when it is not there. -/
def dropLit (p s : List Char) : Option (List Char) :=
  if isPre p s then some (s.drop p.length) else none

/-- Model of Python `url.rstrip("/")`: remove every trailing `'/'`. -/
def rstripSlash (s : List Char) : List Char :=
  (s.reverse.dropWhile (fun c => c == '/')).reverse

/-- Model of `href.startswith("/")`. -/
def startsSlash : List Char → Bool
  | c :: _ => c == '/'
  | [] => false

/-- Model of `href.startswith(("http://", "https://"))`. -/
def startsHttp (s : List Char) : Bool :=
  isPre (ofStr "http://") s || isPre (ofStr "https://") s

/-- First `some` produced when scanning a list left to right
(model of a Python `for` loop with an early `return`). -/
def firstSome {α β : Type} (f : α → Option β) : List α → Option β
  | [] => none
  | a :: l =>
    match f a with
    | some b => some b
    | none => firstSome f l

/-- Boolean membership test for `List Char` keys (model of Python `in` on a set). -/
def memL (x : List Char) : List (List Char) → Bool
  | [] => false
  | y :: ys => x == y || memL x ys

/-- `containsSub p s` holds when `p` occurs as a contiguous substring of `s`
(model of Python `p in s`). -/
def containsSub (p : List Char) : List Char → Bool
  | [] => isPre p []
  | c :: s => isPre p (c :: s) || containsSub p s

/-- The part of a URL after its `http://` / `https://` scheme, if any. -/
def afterScheme (u : List Char) : List Char :=
  if isPre (ofStr "http://") u then u.drop 7
  else if isPre (ofStr "https://") u then u.drop 8
  else u

/-! ### Basic lemmas about the utilities -/

theorem isPre_append_self (p t : List Char) : isPre p (p ++ t) = true := by
  induction p with
  | nil => rfl
  | cons c cs ih => simp [isPre, ih]

theorem isPre_mono {p x : List Char} (y : List Char) (h : isPre p x = true) :
    isPre p (x ++ y) = true := by
  induction p generalizing x with
  | nil => rfl
  | cons c cs ih =>
    cases x with
    | nil => simp [isPre] at h
    | cons d ds =>
      simp only [isPre, Bool.and_eq_true, beq_iff_eq] at h ⊢
      exact ⟨h.1, ih h.2⟩

theorem isPre_length {p x : List Char} (h : isPre p x = true) : p.length ≤ x.length := by
  induction p generalizing x with
  | nil => simp
  | cons c cs ih =>
    cases x with
    | nil => simp [isPre] at h
    | cons d ds =>
      simp only [isPre, Bool.and_eq_true] at h
      simpa [List.length_cons, Nat.succ_le_succ_iff] using ih h.2

theorem startsHttp_mono {x : List Char} (y : List Char) (h : startsHttp x = true) :
    startsHttp (x ++ y) = true := by
  simp only [startsHttp, Bool.or_eq_true] at h ⊢
  rcases h with h | h
  · exact Or.inl (isPre_mono y h)
  · exact Or.inr (isPre_mono y h)

theorem firstSome_eq_some {α β : Type} {f : α → Option β} {l : List α} {b : β}
    (h : firstSome f l = some b) : ∃ a ∈ l, f a = some b := by
  induction l with
  | nil => simp [firstSome] at h
  | cons a l ih =>
    simp only [firstSome] at h
    cases hfa : f a with
    | some c =>
      rw [hfa] at h
      exact ⟨a, List.mem_cons_self a l, hfa.trans h⟩
    | none =>
      rw [hfa] at h
      obtain ⟨x, hx, hfx⟩ := ih h
      exact ⟨x, List.mem_cons_of_mem a hx, hfx⟩

theorem memL_iff {x : List Char} {l : List (List Char)} : memL x l = true ↔ x ∈ l := by
  induction l with
  | nil => simp [memL]
  | cons y ys ih =>
    simp [memL, ih, List.mem_cons, beq_iff_eq]

/-- The head of the part stripped by `dropWhile` never satisfies the test. -/
theorem head?_dropWhile_slash (l : List Char) :
    (l.dropWhile (fun c => c == '/')).head? ≠ some '/' := by
  induction l with
  | nil => simp [List.dropWhile]
  | cons c cs ih =>
    rw [List.dropWhile_cons]
    by_cases hc : c = '/'
    · simpa [hc] using ih
    · simp [hc]

theorem rstripSlash_getLast? (b : List Char) : (rstripSlash b).getLast? ≠ some '/' := by
  unfold rstripSlash
  rw [List.getLast?_reverse]
  exact head?_dropWhile_slash b.reverse

/-! ### The URL resolver

`find_career_page` resolves candidate `href`s against the company base URL
with the same three-way branch in three places (lines 179-183, 197-201 and
211-216 of `career_page_url_finder.py`):

```python
if href.startswith("/"):
    href = base_url.rstrip("/") + href
elif not href.startswith(("http://", "https://")):
    href = base_url.rstrip("/") + "/" + href
```
-/

def resolve (base_url href : List Char) : List Char :=
  if startsSlash href then rstripSlash base_url ++ href
  else if startsHttp href then href
  else rstripSlash base_url ++ '/' :: href

/-- `Modelled from the spec:` the spec's resolver contract says a root-relative
href is joined to "the scheme+host of base_url"; this definition follows those
words (scheme, then the host up to the first `'/'`), for comparison with the
code's `resolve`, which keeps the whole base URL. -/
def schemeHost (b : List Char) : List Char :=
  if isPre (ofStr "http://") b then
    ofStr "http://" ++ (b.drop 7).takeWhile (fun c => !(c == '/'))
  else if isPre (ofStr "https://") b then
    ofStr "https://" ++ (b.drop 8).takeWhile (fun c => !(c == '/'))
  else b

/-- `Modelled from the spec:` the resolver result the spec's words prescribe
for a root-relative href. -/
def resolveSpecRootRel (b h : List Char) : List Char :=
  rstripSlash (schemeHost b) ++ h

theorem isPre_cons_inv {p : Char} {ps s : List Char} (h : isPre (p :: ps) s = true) :
    ∃ t, s = p :: t ∧ isPre ps t = true := by
  cases s with
  | nil => simp [isPre] at h
  | cons c cs =>
    simp only [isPre, Bool.and_eq_true, beq_iff_eq] at h
    exact ⟨cs, by rw [h.1], h.2⟩

/-- A scheme-qualified URL starts with the letter `h`, so never with `/`. -/
theorem startsHttp_not_slash {h : List Char} (hh : startsHttp h = true) :
    startsSlash h = false := by
  simp only [startsHttp, Bool.or_eq_true] at hh
  rcases hh with h1 | h1
  · rw [show ofStr "http://" = 'h' :: ofStr "ttp://" from rfl] at h1
    obtain ⟨t, rfl, -⟩ := isPre_cons_inv h1
    rfl
  · rw [show ofStr "https://" = 'h' :: ofStr "ttps://" from rfl] at h1
    obtain ⟨t, rfl, -⟩ := isPre_cons_inv h1
    rfl

/-- C4 (amended). The resolver's contract, as the code implements it: a
root-relative href is appended to the whole base URL with its trailing
slashes stripped (not to the scheme+host of the base); an href that already
carries a scheme is returned unchanged; any other href is joined to the
stripped base with exactly one inserted `/`; the href is always a suffix of
the result (no segment of it is dropped); and the stripped base never ends
in `/`, so the join itself never doubles a slash (a `//` already inside the
href is kept verbatim). -/
theorem resolve_contract (b h : List Char) :
    (startsSlash h = true → resolve b h = rstripSlash b ++ h) ∧
    (startsHttp h = true → resolve b h = h) ∧
    (startsSlash h = false → startsHttp h = false →
      resolve b h = rstripSlash b ++ '/' :: h) ∧
    List.IsSuffix h (resolve b h) ∧
    (rstripSlash b).getLast? ≠ some '/' := by
  refine ⟨?_, ?_, ?_, ?_, rstripSlash_getLast? b⟩
  · intro hs; simp [resolve, hs]
  · intro hh; simp [resolve, startsHttp_not_slash hh, hh]
  · intro hs hh; simp [resolve, hs, hh]
  · unfold resolve
    by_cases hs : startsSlash h
    · simp only [hs, if_true]
      exact ⟨rstripSlash b, rfl⟩
    · by_cases hh : startsHttp h
      · simp only [hs, hh, if_true, if_false, Bool.false_eq_true]
        exact ⟨[], rfl⟩
      · simp only [hs, hh, if_false, Bool.false_eq_true]
        exact ⟨rstripSlash b ++ ['/'], by simp⟩

/-- Witness for `resolve_contract` at a concrete base and href. -/
theorem resolve_contract_witness :
    resolve (ofStr "https://a.com") (ofStr "/jobs") =
      rstripSlash (ofStr "https://a.com") ++ ofStr "/jobs" :=
  (resolve_contract (ofStr "https://a.com") (ofStr "/jobs")).1 (by decide)

/-- C4 counterexample. With a base URL that carries a path, the code joins a
root-relative href to the whole base, not to the scheme+host the spec
prescribes; and an href of the form `//x` yields a doubled slash in the
result's path. -/
theorem resolve_contract_cex :
    resolve (ofStr "https://a.com/en") (ofStr "/jobs") ≠
      resolveSpecRootRel (ofStr "https://a.com/en") (ofStr "/jobs") ∧
    containsSub (ofStr "//")
      (afterScheme (resolve (ofStr "https://a.com") (ofStr "//x"))) = true := by
  decide

/-- Any scheme-qualified href passes through the resolver unchanged. -/
theorem resolve_of_scheme (b g : List Char) (hg : startsHttp g = true) :
    resolve b g = g := by
  simp [resolve, startsHttp_not_slash hg, hg]

/-- With a base that keeps its scheme after stripping, every resolver
output is scheme-qualified. -/
theorem resolve_abs (b g : List Char) (hb : startsHttp (rstripSlash b) = true) :
    startsHttp (resolve b g) = true := by
  unfold resolve
  by_cases hs : startsSlash g
  · simp only [hs, if_true]
    exact startsHttp_mono g hb
  · by_cases hg : startsHttp g
    · simp [hs, hg]
    · simp only [hs, hg, if_false, Bool.false_eq_true]
      exact startsHttp_mono _ hb

/-- C9 (amended). When the base URL still carries its scheme after stripping
trailing slashes, the resolver returns scheme-qualified hrefs unchanged,
every resolver output is scheme-qualified, and resolving twice equals
resolving once. -/
theorem resolve_scheme_idem (b h : List Char)
    (hb : startsHttp (rstripSlash b) = true) :
    (startsHttp h = true → resolve b h = h) ∧
    startsHttp (resolve b h) = true ∧
    resolve b (resolve b h) = resolve b h :=
  ⟨resolve_of_scheme b h, resolve_abs b h hb,
    resolve_of_scheme b (resolve b h) (resolve_abs b h hb)⟩

/-- Witness for `resolve_scheme_idem` at a concrete base and href. -/
theorem resolve_scheme_idem_witness :
    resolve (ofStr "https://a.com") (ofStr "https://b.com/jobs") =
      ofStr "https://b.com/jobs" :=
  (resolve_scheme_idem (ofStr "https://a.com") (ofStr "https://b.com/jobs")
    (by decide)).1 (by decide)

/-- C9 counterexample. Resolver outputs are not always scheme-qualified, and
double resolution then differs from single resolution: a relative href
joined to a schemeless base (or to the degenerate base `https://`, whose
stripped form `https:` is not scheme-qualified) re-resolves to a different
string. -/
theorem resolve_idem_cex :
    (resolve (ofStr "x") (resolve (ofStr "x") (ofStr "y")) ≠
        resolve (ofStr "x") (ofStr "y") ∧
      startsHttp (resolve (ofStr "x") (ofStr "y")) = false) ∧
    resolve (ofStr "https://") (resolve (ofStr "https://") (ofStr "y")) ≠
      resolve (ofStr "https://") (ofStr "y") := by
  decide

/-! ### Third-party job-board URL templates

`THIRD_PARTY_PATTERNS` (lines 58-76) is a list of regexes built from literal
text, escaped dots and a single greedy `([^/]+)` capture group, searched
with `re.search(pattern, href, re.I)`.  A pattern is modelled as a token
list (`lit` for literal text, `cap` for `([^/]+)`); `searchToks` implements
Python's leftmost search with a greedy, backtracking capture, on the
lower-cased subject (the `re.I` flag). -/

inductive Tok where
  | lit (s : List Char)
  | cap
deriving DecidableEq

/-- Length of the maximal run of non-`/` characters at the head of `s`
(the most a greedy `[^/]+` can consume). -/
def maxRun (s : List Char) : Nat := (s.takeWhile (fun c => !(c == '/'))).length

/-- Match a capture-free tail of a pattern against the whole head of `s`. -/
def restLits : List Tok → List Char → Bool
  | [], _ => true
  | Tok.lit p :: ts, s =>
    match dropLit p s with
    | some r => restLits ts r
    | none => false
  | Tok.cap :: _, _ => false

/-- Try capture lengths `n, n-1, ..., 1` (greedy `[^/]+` with backtracking);
in every pattern of the catalog only literal tokens follow the capture. -/
def tryCap (ts : List Tok) (cs : List Char) : Nat → Option (List Char)
  | 0 => none
  | n + 1 =>
    if restLits ts (cs.drop (n + 1)) then some (cs.take (n + 1)) else tryCap ts cs n

/-- Match a pattern at the start of `s`, returning the captured slug. -/
def matchPat : List Tok → List Char → Option (List Char)
  | [], _ => some []
  | Tok.lit p :: ts, s =>
    match dropLit p s with
    | some r => matchPat ts r
    | none => none
  | Tok.cap :: ts, s => tryCap ts s (maxRun s)

/-- Leftmost match of a pattern anywhere in `s` (model of `re.search`). -/
def searchToks (ts : List Tok) : List Char → Option (List Char)
  | [] => matchPat ts []
  | c :: s =>
    match matchPat ts (c :: s) with
    | some r => some r
    | none => searchToks ts s

/-- The catalog of lines 58-76, in declared order. -/
def THIRD_PARTY_PATTERNS : List (List Tok) := [
  [Tok.lit (ofStr "jobs.lever.co/"), Tok.cap],
  [Tok.cap, Tok.lit (ofStr ".lever.co")],
  [Tok.lit (ofStr "boards.greenhouse.io/"), Tok.cap],
  [Tok.lit (ofStr "jobs.greenhouse.io/"), Tok.cap],
  [Tok.lit (ofStr "jobs.ashbyhq.com/"), Tok.cap],
  [Tok.cap, Tok.lit (ofStr ".bamboohr.com/jobs")],
  [Tok.lit (ofStr "workday."), Tok.cap, Tok.lit (ofStr ".com/careers")],
  [Tok.cap, Tok.lit (ofStr ".workday.com/careers")],
  [Tok.cap, Tok.lit (ofStr ".recruitee.com")],
  [Tok.cap, Tok.lit (ofStr ".applytojob.com")],
  [Tok.cap, Tok.lit (ofStr ".breezy.hr")],
  [Tok.cap, Tok.lit (ofStr ".comeet.com/jobs")],
  [Tok.cap, Tok.lit (ofStr ".teamtailor.com")],
  [Tok.cap, Tok.lit (ofStr ".rippling-ats.com")],
  [Tok.lit (ofStr "linkedin.com/company/"), Tok.cap, Tok.lit (ofStr "/jobs")],
  [Tok.lit (ofStr "indeed.com/cmp/"), Tok.cap, Tok.lit (ofStr "/jobs")],
  [Tok.lit (ofStr "smartrecruiters.com/"), Tok.cap]]

/-- Scan the catalog in declared order, returning the first matching
pattern's index together with its captured slug. -/
def firstPatMatch (u : List Char) : Nat → List (List Tok) → Option (Nat × List Char)
  | _, [] => none
  | i, p :: ps =>
    match searchToks p (lowerL u) with
    | some slug => some (i, slug)
    | none => firstPatMatch u (i + 1) ps

/-- The spec's `isThirdPartyJobBoard` classifier over the code's catalog. -/
def isThirdPartyJobBoard (u : List Char) : Option (Nat × List Char) :=
  firstPatMatch u 0 THIRD_PARTY_PATTERNS

/-- The result of the catalog's `i`-th pattern alone on `u`. -/
def patSlug (i : Nat) (u : List Char) : Option (List Char) :=
  match THIRD_PARTY_PATTERNS[i]? with
  | some p => searchToks p (lowerL u)
  | none => none

/-- The Boolean test the discovery chain performs on each anchor href
(lines 156-159: `for pattern in THIRD_PARTY_PATTERNS: if re.search(...)`). -/
def anyThirdParty (u : List Char) : Bool := (isThirdPartyJobBoard u).isSome

theorem firstPatMatch_go {u : List Char} :
    ∀ (ps : List (List Tok)) (i0 i : Nat) (s : List Char),
      firstPatMatch u i0 ps = some (i, s) →
      ∃ k, i = i0 + k ∧
        (∃ p, ps[k]? = some p ∧ searchToks p (lowerL u) = some s) ∧
        ∀ j q, j < k → ps[j]? = some q → searchToks q (lowerL u) = none := by
  intro ps
  induction ps with
  | nil => intro i0 i s h; simp [firstPatMatch] at h
  | cons p ps ih =>
    intro i0 i s h
    simp only [firstPatMatch] at h
    cases hp : searchToks p (lowerL u) with
    | some slug =>
      rw [hp] at h
      obtain ⟨rfl, rfl⟩ : i0 = i ∧ slug = s := by
        simpa [Prod.ext_iff, eq_comm] using h
      exact ⟨0, by simp, ⟨p, by simp, hp⟩, fun j q hj => absurd hj (Nat.not_lt_zero j)⟩
    | none =>
      rw [hp] at h
      obtain ⟨k, hk, ⟨q, hq, hqs⟩, hnone⟩ := ih (i0 + 1) i s h
      refine ⟨k + 1, by omega, ⟨q, by simpa using hq, hqs⟩, ?_⟩
      intro j r hj hr
      cases j with
      | zero =>
        simp only [List.getElem?_cons_zero, Option.some_inj] at hr
        rw [← hr]; exact hp
      | succ j =>
        exact hnone j r (Nat.lt_of_succ_lt_succ hj) (by simpa using hr)

/-- C7. The third-party classifier checks the templates in declared catalog
order and returns the first match: when it yields index `i` with a slug, the
`i`-th template matches with that slug and every earlier template fails; on
`https://jobs.lever.co/acme` the very first template matches with slug
`acme`, and `https://acme.com/careers` matches no template. -/
theorem third_party_first_match :
    (∀ (u : List Char) (i : Nat) (s : List Char),
      isThirdPartyJobBoard u = some (i, s) →
        patSlug i u = some s ∧ ∀ j, j < i → patSlug j u = none) ∧
    isThirdPartyJobBoard (ofStr "https://jobs.lever.co/acme") =
      some (0, ofStr "acme") ∧
    isThirdPartyJobBoard (ofStr "https://acme.com/careers") = none := by
  refine ⟨?_, by decide, by decide⟩
  intro u i s h
  obtain ⟨k, hk, ⟨p, hget, hsearch⟩, hnone⟩ := firstPatMatch_go THIRD_PARTY_PATTERNS 0 i s h
  have hik : i = k := by omega
  subst hik
  constructor
  · simp [patSlug, hget, hsearch]
  · intro j hj
    cases hq : THIRD_PARTY_PATTERNS[j]? with
    | none => simp [patSlug, hq]
    | some q =>
      simp only [patSlug, hq]
      exact hnone j q hj hq

/-- Witness for `third_party_first_match`: the first-match property applied
at the Lever URL of the claim. -/
theorem third_party_first_match_witness :
    patSlug 0 (ofStr "https://jobs.lever.co/acme") = some (ofStr "acme") :=
  (third_party_first_match.1 (ofStr "https://jobs.lever.co/acme") 0 (ofStr "acme")
    (by decide)).1

/-! ### Link-text and signal regexes

`LINK_TEXTS` (lines 79-96) and the page-content / heading signal regexes use
literals, `\s+`, optional groups, alternation and `.?`, always under `re.I`
and consumed only for their Boolean truth (`re.search`, `filter(has_text=…)`).
`Re` covers exactly those constructs; `searchRe` is Boolean `re.search`. -/

inductive Re where
  | eps
  | lit (c : Char)
  | anyc
  | wsp
  | seq (a b : Re)
  | alt (a b : Re)
  | opt (a : Re)
deriving DecidableEq

/-- Python `\s` over ASCII: space, tab, newline, carriage return,
vertical tab, form feed. -/
def isWsChar (c : Char) : Bool :=
  c == ' ' || c == '\t' || c == '\n' || c == '\r' || c == '\x0b' || c == '\x0c'

/-- Continuation-passing match of `\s+`: consume one or more whitespace
characters, then hand the rest to `k` (trying every split). -/
def wspCont (k : List Char → Bool) : List Char → Bool
  | [] => false
  | c :: s => isWsChar c && (k s || wspCont k s)

/-- Backtracking matcher in continuation-passing style; the subject is
lower-cased character by character, patterns being all lower case (`re.I`).
`.` does not match a newline, as in Python without `re.DOTALL`. -/
def matchRe : Re → List Char → (List Char → Bool) → Bool
  | Re.eps, s, k => k s
  | Re.lit c, s, k =>
    match s with
    | [] => false
    | x :: xs => (x.toLower == c) && k xs
  | Re.anyc, s, k =>
    match s with
    | [] => false
    | x :: xs => !(x == '\n') && k xs
  | Re.wsp, s, k => wspCont k s
  | Re.seq a b, s, k => matchRe a s (fun r => matchRe b r k)
  | Re.alt a b, s, k => matchRe a s k || matchRe b s k
  | Re.opt a, s, k => k s || matchRe a s k

/-- Does the pattern match anywhere in the subject (Boolean `re.search`)? -/
def searchRe (r : Re) : List Char → Bool
  | [] => matchRe r [] (fun _ => true)
  | c :: s => matchRe r (c :: s) (fun _ => true) || searchRe r s

/-- Sequence of literal characters. -/
def strRe (s : String) : Re := s.data.foldr (fun c r => Re.seq (Re.lit c) r) Re.eps

/-- Right-nested sequence of sub-patterns. -/
def seqL (l : List Re) : Re := l.foldr Re.seq Re.eps

/-- The career-link text patterns of lines 79-96, in declared order. -/
def LINK_TEXTS : List Re := [
  strRe "career", strRe "job", strRe "employment", strRe "position",
  strRe "vacanc", strRe "opening", strRe "opportunit",
  seqL [strRe "join", Re.opt (seqL [Re.wsp, strRe "the"]), Re.wsp, strRe "team"],
  seqL [strRe "join", Re.wsp, strRe "us"],
  seqL [strRe "work", Re.wsp, Re.alt (strRe "with") (strRe "for"), Re.wsp, strRe "us"],
  seqL [strRe "we", Re.opt Re.anyc, strRe "re", Re.wsp, strRe "hiring"],
  seqL [strRe "we", Re.wsp, strRe "are", Re.wsp, strRe "hiring"],
  seqL [strRe "apply", Re.wsp, Re.alt (strRe "now") (strRe "today")],
  seqL [strRe "work", Re.wsp, strRe "at"],
  seqL [strRe "work", Re.wsp, strRe "for"],
  seqL [strRe "explore", Re.wsp, Re.alt (strRe "job") (strRe "career")],
  seqL [strRe "find", Re.wsp, strRe "a", Re.wsp, Re.alt (strRe "job") (strRe "career")],
  seqL [strRe "become", Re.wsp, strRe "part", Re.wsp, strRe "of"],
  seqL [strRe "apply", Re.wsp, strRe "for"],
  seqL [strRe "current", Re.wsp,
    Re.alt (strRe "opening") (Re.alt (strRe "position") (strRe "vacanc"))],
  seqL [strRe "career", Re.wsp, strRe "path"],
  seqL [strRe "job", Re.wsp, strRe "search"],
  seqL [strRe "join", Re.wsp, strRe "our", Re.wsp, strRe "talent"],
  seqL [strRe "life", Re.wsp, strRe "at"],
  seqL [strRe "work", Re.wsp, strRe "life"]]

/-- Content signal of lines 124 and 267:
`(career|job|position|opening|opportunit|vacanc)`. -/
def sigCore : Re :=
  Re.alt (strRe "career") (Re.alt (strRe "job") (Re.alt (strRe "position")
    (Re.alt (strRe "opening") (Re.alt (strRe "opportunit") (strRe "vacanc")))))

/-- Content signal of line 234:
`(career|job|position|opening|opportunit|work with us|employ|vacanc)`. -/
def sigDirect : Re :=
  Re.alt (strRe "career") (Re.alt (strRe "job") (Re.alt (strRe "position")
    (Re.alt (strRe "opening") (Re.alt (strRe "opportunit")
      (Re.alt (strRe "work with us") (Re.alt (strRe "employ") (strRe "vacanc")))))))

/-- Search-result heading signal of line 257:
`(career|job|position|opening|join|work)`. -/
def sigH3 : Re :=
  Re.alt (strRe "career") (Re.alt (strRe "job") (Re.alt (strRe "position")
    (Re.alt (strRe "opening") (Re.alt (strRe "join") (strRe "work")))))

/-- Case-insensitive whole-text equality (model of the anchored
`re.compile(f"^{nav_text}$", re.I)` filter of line 166). -/
def eqIC (a b : List Char) : Bool := lowerL a == lowerL b

/-- The direct URL path catalog of lines 11-48, in declared order
(duplicates included). -/
def URL_PATTERNS : List (List Char) := [
  ofStr "/careers", ofStr "/jobs", ofStr "/join-us", ofStr "/work-with-us", ofStr "/join",
  ofStr "/job-openings", ofStr "/vacancies", ofStr "/positions", ofStr "/employment",
  ofStr "/career", ofStr "/work", ofStr "/hiring", ofStr "/apply", ofStr "/job-opportunities",
  ofStr "/opportunities", ofStr "/career-opportunities", ofStr "/open-opportunities",
  ofStr "/current-opportunities", ofStr "/job-opportunities",
  ofStr "/open-positions", ofStr "/openings", ofStr "/current-openings", ofStr "/job-openings",
  ofStr "/company/careers", ofStr "/company/jobs", ofStr "/company/join-us",
  ofStr "/company/work-with-us",
  ofStr "/company/opportunities", ofStr "/company/openings", ofStr "/company/positions",
  ofStr "/about/careers", ofStr "/about/jobs", ofStr "/about/join-us",
  ofStr "/about/work-with-us",
  ofStr "/about/opportunities", ofStr "/about-us/careers", ofStr "/about-us/jobs",
  ofStr "/team/join", ofStr "/team/careers", ofStr "/team/jobs", ofStr "/join-the-team",
  ofStr "/our-team/careers", ofStr "/our-team/jobs",
  ofStr "/life/careers", ofStr "/life/jobs", ofStr "/life", ofStr "/life-at-company",
  ofStr "/hr/careers", ofStr "/hr/jobs", ofStr "/hr/opportunities", ofStr "/recruitment",
  ofStr "/career-opportunities", ofStr "/job-opportunities", ofStr "/job-openings",
  ofStr "/us/careers", ofStr "/usa/careers", ofStr "/en/careers", ofStr "/global/careers",
  ofStr "/careers/india", ofStr "/jobs/india", ofStr "/careers/remote"]

/-- The subdomain guess catalog of lines 51-55, in declared order. -/
def SUBDOMAIN_PATTERNS : List (List Char) := [
  ofStr "careers", ofStr "jobs", ofStr "work", ofStr "employment", ofStr "hiring",
  ofStr "joinus",
  ofStr "apply", ofStr "talent", ofStr "hr", ofStr "recruitment", ofStr "join",
  ofStr "opportunities", ofStr "team"]

/-- The navigation-menu section labels of line 164, in declared order. -/
def navLabels : List (List Char) := [
  ofStr "company", ofStr "about", ofStr "about us", ofStr "team", ofStr "life",
  ofStr "work"]

/-! ### The browser model

An anchor element carries its visible text and the outcome of
`get_attribute("href")` (which may raise, return `None`, or return a
string).  A loaded page carries: whether `wait_for_load_state` raises on
it, its anchor list in DOM order, the footer element count with the anchors
under the footers, the raw page content, the `h3` heading texts, and the
outcome of clicking the first signal-matching `h3` (another page, or an
exception — this also covers a raising `text_content`/`wait` around the
click).  `goto` may raise, return `None`, or return a response with an HTTP
status.  Hovering the first navigation link with a given label either raises
or yields the page's new anchor list (dropdown revealed). -/

deriving instance DecidableEq for Except

structure Link where
  text : List Char
  href : Option (List Char)
  attrRaises : Bool
deriving DecidableEq

structure ClickDoc where
  url : List Char
  content : List Char
deriving DecidableEq

structure PageDoc where
  waitRaises : Bool
  links : List Link
  footerCount : Nat
  footerLinks : List Link
  content : List Char
  h3s : List (List Char)
  clickFirst : Sum Unit ClickDoc
deriving DecidableEq

inductive GotoRes where
  | raises
  | noResp (doc : PageDoc)
  | resp (status : Nat) (doc : PageDoc)
deriving DecidableEq

structure Env where
  goto : List Char → GotoRes
  hover : List Char → Sum Unit (List Link)

def docOf : GotoRes → Option PageDoc
  | GotoRes.raises => none
  | GotoRes.noResp doc => some doc
  | GotoRes.resp _ doc => some doc

/-! ### Strategy 0: subdomain probing (`check_subdomain_urls`, lines 98-132) -/

/-- Model of `re.match(r"https?://(?:www\.)?([^/]+)", base_url)` including
the backtracking on the optional `www.` group. -/
def parse_host (u : List Char) : Option (List Char) :=
  let rest? :=
    match dropLit (ofStr "http://") u with
    | some r => some r
    | none => dropLit (ofStr "https://") u
  match rest? with
  | none => none
  | some r =>
    let host1 :=
      match dropLit (ofStr "www.") r with
      | some r2 =>
        let h := r2.takeWhile (fun c => !(c == '/'))
        if h.isEmpty then none else some h
      | none => none
    match host1 with
    | some h => some h
    | none =>
      let h := r.takeWhile (fun c => !(c == '/'))
      if h.isEmpty then none else some h

/-- Model of `"." .join(domain.split(".")[-2:])` (line 105). -/
def splitDot : List Char → List (List Char)
  | [] => [[]]
  | c :: s =>
    match splitDot s with
    | [] => [[]]
    | g :: gs => if c == '.' then [] :: g :: gs else (c :: g) :: gs

def joinDot : List (List Char) → List Char
  | [] => []
  | [g] => g
  | g :: gs => g ++ '.' :: joinDot gs

def base_domain (domain : List Char) : List Char :=
  let parts := splitDot domain
  joinDot (parts.drop (parts.length - 2))

def subdomain_urls (bd : List Char) : List (List Char) :=
  SUBDOMAIN_PATTERNS.map (fun p => ofStr "https://" ++ p ++ '.' :: bd)

/-- One probe of a candidate URL: navigation errors are swallowed, a missing
or error response fails the candidate, and otherwise the page content is
checked for the given career signal (lines 117-129 and 224-238). -/
def probeSignal (env : Env) (sig : Re) (url : List Char) : Option (List Char) :=
  match env.goto url with
  | GotoRes.raises => none
  | GotoRes.noResp _ => none
  | GotoRes.resp st doc =>
    if st < 400 then (if searchRe sig doc.content then some url else none) else none

def check_subdomain_urls (env : Env) (base_url : List Char) : Option (List Char) :=
  match parse_host base_url with
  | none => none
  | some domain =>
    firstSome (probeSignal env sigCore) (subdomain_urls (base_domain domain))

/-! ### Strategies 1-3 (lines 144-220, a single `try` block) -/

/-- The third-party scan of lines 150-161: each link has its own
`try`/`except`, and a truthy href matching any catalog pattern is returned
verbatim. -/
def linkThirdParty (l : Link) : Option (List Char) :=
  if l.attrRaises then none
  else
    match l.href with
    | some (c :: cs) => if anyThirdParty (c :: cs) then some (c :: cs) else none
    | _ => none

def thirdPartyScan (links : List Link) : Option (List Char) :=
  firstSome linkThirdParty links

/-- `if href:` on the attribute value: a truthy href is resolved and
returned, a falsy one falls through to the given continuation. -/
def careerLinkHref (base : List Char) (href : Option (List Char))
    (fallback : Except Unit (Option (List Char))) : Except Unit (Option (List Char)) :=
  match href with
  | some (c :: cs) => Except.ok (some (resolve base (c :: cs)))
  | _ => fallback

/-- The career-link loop shared by strategies 1, 2 and 3 (lines 174-185,
192-203, 207-218): for each `LINK_TEXTS` pattern in order, take the first
matching link; a raising `get_attribute` escapes the whole strategy block;
a falsy href falls through to the next pattern; a truthy href is resolved
and returned. -/
def careerScanGo (links : List Link) (base : List Char) :
    List Re → Except Unit (Option (List Char))
  | [] => Except.ok none
  | rx :: rest =>
    match (links.filter (fun l => searchRe rx l.text)).head? with
    | none => careerScanGo links base rest
    | some l =>
      if l.attrRaises then Except.error ()
      else careerLinkHref base l.href (careerScanGo links base rest)

def careerScan (links : List Link) (base : List Char) : Except Unit (Option (List Char)) :=
  careerScanGo links base LINK_TEXTS

/-- The navigation-menu loop of lines 164-185: for each section label in
order, if some link's text equals the label (case-insensitively), hover it
(possibly raising, which escapes the strategy block) and scan the revealed
link list on a career-link hit return it resolved, on a miss continue with
the remaining labels; the final link list is carried out for strategy 3. -/
def navScan (env : Env) (base : List Char) :
    List (List Char) → List Link → Except Unit (Option (List Char) × List Link)
  | [], links => Except.ok (none, links)
  | lab :: rest, links =>
    if 0 < (links.filter (fun l => eqIC l.text lab)).length then
      match env.hover lab with
      | Sum.inl _ => Except.error ()
      | Sum.inr links2 =>
        match careerScan links2 base with
        | Except.error _ => Except.error ()
        | Except.ok (some u) => Except.ok (some u, links2)
        | Except.ok none => navScan env base rest links2
    else navScan env base rest links

/-- Strategy 1's work once the homepage `doc` has loaded. -/
def strat1Loaded (env : Env) (base : List Char) (doc : PageDoc) :
    Except Unit (Option (List Char) × List Link × PageDoc) :=
  if doc.waitRaises then Except.error ()
  else
    match thirdPartyScan doc.links with
    | some h => Except.ok (some h, doc.links, doc)
    | none =>
      match navScan env base navLabels doc.links with
      | Except.error _ => Except.error ()
      | Except.ok t => Except.ok (t.1, t.2, doc)

/-- Strategy 1 in full (homepage load, third-party scan, navigation-menu
traversal), keeping the final link list and the loaded page for
strategies 2 and 3. -/
def strat1full (env : Env) (base : List Char) :
    Except Unit (Option (List Char) × List Link × PageDoc) :=
  match docOf (env.goto base) with
  | none => Except.error ()
  | some doc => strat1Loaded env base doc

/-- Strategy 2, the footer scan of lines 188-203. -/
def footerStep (doc : PageDoc) (base : List Char) : Except Unit (Option (List Char)) :=
  if 0 < doc.footerCount then careerScan doc.footerLinks base else Except.ok none

/-- Strategies 2 and 3, run when strategy 1 completed without an error:
`r` is strategy 1's own result, `links2` the page's final link list and
`doc` the loaded homepage. -/
def s123AfterNav (base : List Char) (r : Option (List Char)) (links2 : List Link)
    (doc : PageDoc) : Except Unit (Option (List Char)) :=
  match r with
  | some u => Except.ok (some u)
  | none =>
    match footerStep doc base with
    | Except.error _ => Except.error ()
    | Except.ok (some u) => Except.ok (some u)
    | Except.ok none => careerScan links2 base

/-- Strategies 1, 2 and 3 under their shared `try` block (line 144's `try`
with line 219's `except`): an error anywhere inside yields `error`, which
the caller treats like a miss and falls through to strategy 4. -/
def strategies123 (env : Env) (base : List Char) : Except Unit (Option (List Char)) :=
  match strat1full env base with
  | Except.error _ => Except.error ()
  | Except.ok t => s123AfterNav base t.1 t.2.1 t.2.2

/-! ### Strategy 4: direct URL patterns (lines 222-238) -/

def strategy4 (env : Env) (base : List Char) : Option (List Char) :=
  firstSome (fun pat => probeSignal env sigDirect (rstripSlash base ++ pat)) URL_PATTERNS

/-! ### Strategy 5: search-engine fallback (lines 240-273) -/

def search_queries (company_name : List Char) : List (List Char) :=
  [company_name ++ ofStr " careers", company_name ++ ofStr " jobs",
   company_name ++ ofStr " hiring", company_name ++ ofStr " join team",
   company_name ++ ofStr " careers page"]

/-- After the search page has loaded: find a signal-matching heading, click
it (clicking or the ensuing wait may raise — swallowed per query), and
return the landed page's URL if its content carries the career signal. -/
def googleStep (doc : PageDoc) : Option (List Char) :=
  if doc.waitRaises then none
  else
    match (doc.h3s.filter (fun t => searchRe sigH3 t)).head? with
    | none => none
    | some _ =>
      match doc.clickFirst with
      | Sum.inl _ => none
      | Sum.inr cd => if searchRe sigCore cd.content then some cd.url else none

/-- One query of the search fallback (lines 251-271, an inner `try` per
query): search, inspect headings, click, inspect the landed page. -/
def googleQuery (env : Env) (q : List Char) : Option (List Char) :=
  match env.goto (ofStr "https://www.google.com/search?q=" ++ q) with
  | GotoRes.raises => none
  | GotoRes.noResp doc => googleStep doc
  | GotoRes.resp _ doc => googleStep doc

def strategy5 (env : Env) (company_name : List Char) : Option (List Char) :=
  firstSome (googleQuery env) (search_queries company_name)

/-! ### The full discovery chain (`find_career_page`, lines 134-276) -/

def find_career_page (env : Env) (base_url company_name : List Char) :
    Option (List Char) :=
  match check_subdomain_urls env base_url with
  | some u => some u
  | none =>
    match strategies123 env base_url with
    | Except.ok (some u) => some u
    | _ =>
      match strategy4 env base_url with
      | some u => some u
      | none => strategy5 env company_name

/-! ### Instrumented chain (strategy invocation counting)

The spec asks that the short-circuit be verified "via instrumentation
counting strategy invocations": these variants additionally return the list
of strategy indices that started running, in order, together with the index
of the strategy that produced the result (if any). -/

def s123AfterNav_instr (base : List Char) (r : Option (List Char)) (links2 : List Link)
    (doc : PageDoc) : Except Unit (Option (List Char)) × List Nat × Option Nat :=
  match r with
  | some u => (Except.ok (some u), [1], some 1)
  | none =>
    match footerStep doc base with
    | Except.error _ => (Except.error (), [1, 2], none)
    | Except.ok (some u) => (Except.ok (some u), [1, 2], some 2)
    | Except.ok none =>
      match careerScan links2 base with
      | Except.error _ => (Except.error (), [1, 2, 3], none)
      | Except.ok none => (Except.ok none, [1, 2, 3], none)
      | Except.ok (some u) => (Except.ok (some u), [1, 2, 3], some 3)

def strategies123_instr (env : Env) (base : List Char) :
    Except Unit (Option (List Char)) × List Nat × Option Nat :=
  match strat1full env base with
  | Except.error _ => (Except.error (), [1], none)
  | Except.ok t => s123AfterNav_instr base t.1 t.2.1 t.2.2

def find_career_page_instr (env : Env) (base_url company_name : List Char) :
    Option (List Char) × List Nat × Option Nat :=
  match check_subdomain_urls env base_url with
  | some u => (some u, [0], some 0)
  | none =>
    match strategies123_instr env base_url with
    | (Except.ok (some u), tr, w) => (some u, 0 :: tr, w)
    | (_, tr, _) =>
      match strategy4 env base_url with
      | some u => (some u, 0 :: tr ++ [4], some 4)
      | none =>
        match strategy5 env company_name with
        | some u => (some u, 0 :: tr ++ [4, 5], some 5)
        | none => (none, 0 :: tr ++ [4, 5], none)

/-- What it means for strategy `k` to have produced URL `u` in this run. -/
def stratProduces (env : Env) (base_url company_name : List Char) :
    Nat → List Char → Prop
  | 0, u => check_subdomain_urls env base_url = some u
  | 1, u => ∃ l d, strat1full env base_url = Except.ok (some u, l, d)
  | 2, u => ∃ l d, strat1full env base_url = Except.ok (none, l, d) ∧
      footerStep d base_url = Except.ok (some u)
  | 3, u => ∃ l d, strat1full env base_url = Except.ok (none, l, d) ∧
      footerStep d base_url = Except.ok none ∧
      careerScan l base_url = Except.ok (some u)
  | 4, u => strategy4 env base_url = some u
  | 5, u => strategy5 env company_name = some u
  | _ + 6, _ => False

theorem strategies123_instr_fst (env : Env) (b : List Char) :
    (strategies123_instr env b).1 = strategies123 env b := by
  unfold strategies123_instr strategies123
  cases strat1full env b with
  | error e => rfl
  | ok t =>
    show (s123AfterNav_instr b t.1 t.2.1 t.2.2).1 = s123AfterNav b t.1 t.2.1 t.2.2
    unfold s123AfterNav_instr s123AfterNav
    cases t.1 with
    | some u => rfl
    | none =>
      cases footerStep t.2.2 b with
      | error e => rfl
      | ok r2 =>
        cases r2 with
        | some u => rfl
        | none =>
          cases careerScan t.2.1 b with
          | error e => rfl
          | ok r3 => cases r3 <;> rfl

theorem s123AfterNav_instr_spec (env : Env) (b n : List Char) (r : Option (List Char))
    (l : List Link) (d : PageDoc) (h1 : strat1full env b = Except.ok (r, l, d)) :
    ((s123AfterNav_instr b r l d).2.1 = [1] ∨
      (s123AfterNav_instr b r l d).2.1 = [1, 2] ∨
      (s123AfterNav_instr b r l d).2.1 = [1, 2, 3]) ∧
    ∀ u, (s123AfterNav_instr b r l d).1 = Except.ok (some u) →
      ∃ k, (s123AfterNav_instr b r l d).2.2 = some k ∧
        (s123AfterNav_instr b r l d).2.1.getLast? = some k ∧
        stratProduces env b n k u := by
  unfold s123AfterNav_instr
  cases r with
  | some u0 =>
    refine ⟨Or.inl rfl, ?_⟩
    intro u hu
    simp only [Except.ok.injEq, Option.some.injEq] at hu
    subst hu
    exact ⟨1, rfl, rfl, l, d, h1⟩
  | none =>
    cases h2 : footerStep d b with
    | error e =>
      refine ⟨Or.inr (Or.inl rfl), ?_⟩
      intro u hu
      simp at hu
    | ok r2 =>
      cases r2 with
      | some u0 =>
        refine ⟨Or.inr (Or.inl rfl), ?_⟩
        intro u hu
        simp only [Except.ok.injEq, Option.some.injEq] at hu
        subst hu
        exact ⟨2, rfl, rfl, l, d, h1, h2⟩
      | none =>
        cases h3 : careerScan l b with
        | error e =>
          refine ⟨Or.inr (Or.inr rfl), ?_⟩
          intro u hu
          simp at hu
        | ok r3 =>
          cases r3 with
          | none =>
            refine ⟨Or.inr (Or.inr rfl), ?_⟩
            intro u hu
            simp at hu
          | some u0 =>
            refine ⟨Or.inr (Or.inr rfl), ?_⟩
            intro u hu
            simp only [Except.ok.injEq, Option.some.injEq] at hu
            subst hu
            exact ⟨3, rfl, rfl, l, d, h1, h2, h3⟩

theorem strategies123_instr_spec (env : Env) (b n : List Char) :
    ((strategies123_instr env b).2.1 = [1] ∨
      (strategies123_instr env b).2.1 = [1, 2] ∨
      (strategies123_instr env b).2.1 = [1, 2, 3]) ∧
    ∀ u, (strategies123_instr env b).1 = Except.ok (some u) →
      ∃ k, (strategies123_instr env b).2.2 = some k ∧
        (strategies123_instr env b).2.1.getLast? = some k ∧
        stratProduces env b n k u := by
  cases h1 : strat1full env b with
  | error e =>
    unfold strategies123_instr
    rw [h1]
    exact ⟨Or.inl rfl, fun u hu => by simp at hu⟩
  | ok t =>
    obtain ⟨r, l, d⟩ := t
    unfold strategies123_instr
    rw [h1]
    exact s123AfterNav_instr_spec env b n r l d h1

/-- Traces and last elements for the possible instrumented runs. -/
theorem chainTraceFacts (tr : List Nat) (h : tr = [1] ∨ tr = [1, 2] ∨ tr = [1, 2, 3]) :
    List.Chain' (· < ·) (0 :: tr) ∧
    List.Chain' (· < ·) (0 :: tr ++ [4]) ∧
    List.Chain' (· < ·) (0 :: tr ++ [4, 5]) ∧
    (0 :: tr ++ [4]).getLast? = some 4 ∧
    (0 :: tr ++ [4, 5]).getLast? = some 5 := by
  rcases h with rfl | rfl | rfl <;>
    refine ⟨?_, ?_, ?_, by decide, by decide⟩ <;> simp [List.chain'_cons]

/-- C2. The chain evaluates strategies 0-5 in fixed order with strict
short-circuit: the instrumented run returns the same result as
`find_career_page`, its invocation trace is strictly increasing, and when a
URL is returned the winning strategy is the last one that started running —
no later strategy is invoked and the returned URL is exactly the winner's
output. -/
theorem find_career_page_short_circuit (env : Env) (b n : List Char) :
    (find_career_page_instr env b n).1 = find_career_page env b n ∧
    List.Chain' (· < ·) (find_career_page_instr env b n).2.1 ∧
    ∀ u, find_career_page env b n = some u →
      ∃ k, (find_career_page_instr env b n).2.2 = some k ∧
        (find_career_page_instr env b n).2.1.getLast? = some k ∧
        stratProduces env b n k u := by
  have h123 := strategies123_instr_fst env b
  have hspec := strategies123_instr_spec env b n
  unfold find_career_page_instr find_career_page
  cases hs : check_subdomain_urls env b with
  | some u =>
    refine ⟨rfl, ?_, ?_⟩
    · exact List.chain'_singleton 0
    · intro v hv
      obtain rfl : u = v := Option.some.inj hv
      exact ⟨0, rfl, rfl, hs⟩
  | none =>
    rcases hi : strategies123_instr env b with ⟨r, tr, w⟩
    rw [hi] at h123 hspec
    rw [← h123]
    have htr := hspec.1
    have hfacts := chainTraceFacts tr htr
    cases r with
    | ok r0 =>
      cases r0 with
      | some u =>
        refine ⟨rfl, hfacts.1, ?_⟩
        intro v hv
        obtain rfl : u = v := Option.some.inj hv
        obtain ⟨k, hw, hlast, hprod⟩ := hspec.2 u rfl
        refine ⟨k, hw, ?_, hprod⟩
        rcases htr with rfl | rfl | rfl <;> exact hlast
      | none =>
        cases h4 : strategy4 env b with
        | some u =>
          refine ⟨rfl, hfacts.2.1, ?_⟩
          intro v hv
          obtain rfl : u = v := Option.some.inj hv
          exact ⟨4, rfl, hfacts.2.2.2.1, h4⟩
        | none =>
          cases h5 : strategy5 env n with
          | some u =>
            refine ⟨rfl, hfacts.2.2.1, ?_⟩
            intro v hv
            obtain rfl : u = v := Option.some.inj hv
            exact ⟨5, rfl, hfacts.2.2.2.2, h5⟩
          | none =>
            refine ⟨rfl, hfacts.2.2.1, ?_⟩
            intro v hv
            exact Option.noConfusion hv
    | error e =>
      cases h4 : strategy4 env b with
      | some u =>
        refine ⟨rfl, hfacts.2.1, ?_⟩
        intro v hv
        obtain rfl : u = v := Option.some.inj hv
        exact ⟨4, rfl, hfacts.2.2.2.1, h4⟩
      | none =>
        cases h5 : strategy5 env n with
        | some u =>
          refine ⟨rfl, hfacts.2.2.1, ?_⟩
          intro v hv
          obtain rfl : u = v := Option.some.inj hv
          exact ⟨5, rfl, hfacts.2.2.2.2, h5⟩
        | none =>
          refine ⟨rfl, hfacts.2.2.1, ?_⟩
          intro v hv
          exact Option.noConfusion hv

/-! ### Which URLs the chain can return (claim C1) -/

/-- The browser reports a scheme-qualified URL for a page landed on by a
click (true of real browsers; `page.url` of line 265). -/
def ClickAbs : Sum Unit ClickDoc → Prop
  | Sum.inl _ => True
  | Sum.inr cd => startsHttp cd.url = true

def GotoAbs : GotoRes → Prop
  | GotoRes.raises => True
  | GotoRes.noResp d => ClickAbs d.clickFirst
  | GotoRes.resp _ d => ClickAbs d.clickFirst

def EnvAbsUrls (env : Env) : Prop := ∀ u, GotoAbs (env.goto u)

theorem probeSignal_eq_some {env : Env} {sig : Re} {url u : List Char}
    (h : probeSignal env sig url = some u) : u = url := by
  unfold probeSignal at h
  cases hg : env.goto url with
  | raises => rw [hg] at h; simp at h
  | noResp d => rw [hg] at h; simp at h
  | resp st d =>
    rw [hg] at h
    have h2 : (if st < 400 then
        (if searchRe sig d.content = true then some url else none)
        else none) = some u := h
    split_ifs at h2
    exact (Option.some.inj h2).symm

theorem check_subdomain_abs {env : Env} {b u : List Char}
    (h : check_subdomain_urls env b = some u) : startsHttp u = true := by
  unfold check_subdomain_urls at h
  cases hp : parse_host b with
  | none => rw [hp] at h; simp at h
  | some domain =>
    rw [hp] at h
    obtain ⟨a, ha, hprobe⟩ := firstSome_eq_some h
    obtain rfl : u = a := probeSignal_eq_some hprobe
    simp only [subdomain_urls, List.mem_map] at ha
    obtain ⟨p, hpmem, rfl⟩ := ha
    simp [startsHttp, isPre_append_self]

theorem thirdPartyScan_eq_some {links : List Link} {u : List Char}
    (h : thirdPartyScan links = some u) : anyThirdParty u = true := by
  unfold thirdPartyScan at h
  obtain ⟨l, hl, hf⟩ := firstSome_eq_some h
  unfold linkThirdParty at hf
  by_cases hr : l.attrRaises = true
  · rw [if_pos hr] at hf; simp at hf
  · rw [if_neg hr] at hf
    cases hh : l.href with
    | none => rw [hh] at hf; simp at hf
    | some v =>
      rw [hh] at hf
      cases v with
      | nil =>
        have hf2 : (none : Option (List Char)) = some u := hf
        simp at hf2
      | cons c cs =>
        have hf2 : (if anyThirdParty (c :: cs) = true then some (c :: cs)
            else none) = some u := hf
        by_cases ht : anyThirdParty (c :: cs) = true
        · rw [if_pos ht] at hf2
          obtain rfl : u = c :: cs := (Option.some.inj hf2).symm
          exact ht
        · rw [if_neg ht] at hf2; simp at hf2

theorem careerLinkHref_ok_some {base : List Char} {href : Option (List Char)}
    {fb : Except Unit (Option (List Char))} {u : List Char}
    (h : careerLinkHref base href fb = Except.ok (some u)) :
    (∃ g, u = resolve base g) ∨ fb = Except.ok (some u) := by
  unfold careerLinkHref at h
  cases href with
  | none => exact Or.inr h
  | some v =>
    cases v with
    | nil => exact Or.inr h
    | cons c cs =>
      exact Or.inl ⟨c :: cs, (Option.some.inj (Except.ok.inj h)).symm⟩

theorem careerScanGo_ok_some {links : List Link} {b u : List Char} :
    ∀ {rxs : List Re}, careerScanGo links b rxs = Except.ok (some u) →
      ∃ g, u = resolve b g := by
  intro rxs
  induction rxs with
  | nil => intro h; simp [careerScanGo] at h
  | cons rx rest ih =>
    intro h
    simp only [careerScanGo] at h
    cases hhead : (links.filter (fun l => searchRe rx l.text)).head? with
    | none =>
      rw [hhead] at h
      exact ih h
    | some l =>
      rw [hhead] at h
      have h2 : (if l.attrRaises = true then Except.error ()
          else careerLinkHref b l.href (careerScanGo links b rest)) =
          Except.ok (some u) := h
      by_cases hr : l.attrRaises = true
      · rw [if_pos hr] at h2; simp at h2
      · rw [if_neg hr] at h2
        rcases careerLinkHref_ok_some h2 with hg | hfb
        · exact hg
        · exact ih hfb

theorem navScan_ok_some {env : Env} {b u : List Char} {links2 : List Link} :
    ∀ {labs : List (List Char)} {links : List Link},
      navScan env b labs links = Except.ok (some u, links2) →
      ∃ g, u = resolve b g := by
  intro labs
  induction labs with
  | nil =>
    intro links h
    simp [navScan] at h
  | cons lab rest ih =>
    intro links h
    simp only [navScan] at h
    by_cases hc : 0 < (links.filter (fun l => eqIC l.text lab)).length
    · rw [if_pos hc] at h
      cases hh : env.hover lab with
      | inl e => rw [hh] at h; simp at h
      | inr links3 =>
        rw [hh] at h
        have h2 : (match careerScan links3 b with
            | Except.error _ => Except.error ()
            | Except.ok (some v) => Except.ok (some v, links3)
            | Except.ok none => navScan env b rest links3) =
            Except.ok (some u, links2) := h
        cases hcs : careerScan links3 b with
        | error e => rw [hcs] at h2; simp at h2
        | ok r =>
          rw [hcs] at h2
          cases r with
          | some v =>
            have hv : some v = some u :=
              congrArg (fun t => t.1) (Except.ok.inj h2)
            obtain rfl : v = u := Option.some.inj hv
            exact careerScanGo_ok_some hcs
          | none => exact ih h2
    · rw [if_neg hc] at h
      exact ih h

theorem strat1full_ok_some {env : Env} {b u : List Char} {l : List Link} {d : PageDoc}
    (h : strat1full env b = Except.ok (some u, l, d)) :
    anyThirdParty u = true ∨ ∃ g, u = resolve b g := by
  unfold strat1full at h
  cases hdoc : docOf (env.goto b) with
  | none => rw [hdoc] at h; simp at h
  | some doc =>
    rw [hdoc] at h
    have h2 : strat1Loaded env b doc = Except.ok (some u, l, d) := h
    unfold strat1Loaded at h2
    by_cases hw : doc.waitRaises = true
    · rw [if_pos hw] at h2; simp at h2
    · rw [if_neg hw] at h2
      cases htp : thirdPartyScan doc.links with
      | some v =>
        rw [htp] at h2
        have hv : some v = some u :=
          congrArg (fun t => t.1) (Except.ok.inj h2)
        obtain rfl : v = u := Option.some.inj hv
        exact Or.inl (thirdPartyScan_eq_some htp)
      | none =>
        rw [htp] at h2
        cases hnav : navScan env b navLabels doc.links with
        | error e => rw [hnav] at h2; simp at h2
        | ok t =>
          obtain ⟨r, links2⟩ := t
          rw [hnav] at h2
          have h3 : Except.ok (r, links2, doc) = Except.ok (some u, l, d) := h2
          have hr : r = some u :=
            congrArg (fun t => t.1) (Except.ok.inj h3)
          subst hr
          exact Or.inr (navScan_ok_some hnav)

theorem footerStep_ok_some {d : PageDoc} {b u : List Char}
    (h : footerStep d b = Except.ok (some u)) : ∃ g, u = resolve b g := by
  unfold footerStep at h
  by_cases hf : 0 < d.footerCount
  · rw [if_pos hf] at h
    exact careerScanGo_ok_some h
  · rw [if_neg hf] at h
    simp at h

theorem strategies123_ok_some {env : Env} {b u : List Char}
    (h : strategies123 env b = Except.ok (some u)) :
    anyThirdParty u = true ∨ ∃ g, u = resolve b g := by
  unfold strategies123 at h
  cases h1 : strat1full env b with
  | error e => rw [h1] at h; simp at h
  | ok t =>
    obtain ⟨r, l, d⟩ := t
    rw [h1] at h
    have h2 : s123AfterNav b r l d = Except.ok (some u) := h
    unfold s123AfterNav at h2
    cases r with
    | some v =>
      obtain rfl : v = u := Option.some.inj (Except.ok.inj h2)
      exact strat1full_ok_some h1
    | none =>
      cases h3 : footerStep d b with
      | error e => rw [h3] at h2; simp at h2
      | ok r2 =>
        rw [h3] at h2
        cases r2 with
        | some v =>
          obtain rfl : v = u := Option.some.inj (Except.ok.inj h2)
          exact Or.inr (footerStep_ok_some h3)
        | none => exact Or.inr (careerScanGo_ok_some h2)

theorem strategy4_abs {env : Env} {b u : List Char}
    (hb : startsHttp (rstripSlash b) = true) (h : strategy4 env b = some u) :
    startsHttp u = true := by
  unfold strategy4 at h
  obtain ⟨pat, hmem, hprobe⟩ := firstSome_eq_some h
  obtain rfl : u = rstripSlash b ++ pat := probeSignal_eq_some hprobe
  exact startsHttp_mono pat hb

theorem googleStep_eq_some {doc : PageDoc} {u : List Char}
    (h : googleStep doc = some u) :
    ∃ cd, doc.clickFirst = Sum.inr cd ∧ u = cd.url := by
  unfold googleStep at h
  by_cases hw : doc.waitRaises = true
  · rw [if_pos hw] at h; simp at h
  · rw [if_neg hw] at h
    cases hh : (doc.h3s.filter (fun t => searchRe sigH3 t)).head? with
    | none => rw [hh] at h; simp at h
    | some t0 =>
      rw [hh] at h
      cases hc : doc.clickFirst with
      | inl e => rw [hc] at h; simp at h
      | inr cd =>
        rw [hc] at h
        have h2 : (if searchRe sigCore cd.content = true then some cd.url
            else none) = some u := h
        by_cases hs : searchRe sigCore cd.content = true
        · rw [if_pos hs] at h2
          exact ⟨cd, rfl, (Option.some.inj h2).symm⟩
        · rw [if_neg hs] at h2; simp at h2

theorem strategy5_abs {env : Env} {n u : List Char}
    (henv : EnvAbsUrls env) (h : strategy5 env n = some u) :
    startsHttp u = true := by
  unfold strategy5 at h
  obtain ⟨q, hq, hf⟩ := firstSome_eq_some h
  unfold googleQuery at hf
  have habs := henv (ofStr "https://www.google.com/search?q=" ++ q)
  cases hg : env.goto (ofStr "https://www.google.com/search?q=" ++ q) with
  | raises => rw [hg] at hf; simp at hf
  | noResp doc =>
    rw [hg] at hf
    rw [hg] at habs
    obtain ⟨cd, hcd, rfl⟩ := googleStep_eq_some hf
    have h2 : ClickAbs doc.clickFirst := habs
    rw [hcd] at h2
    exact h2
  | resp st doc =>
    rw [hg] at hf
    rw [hg] at habs
    obtain ⟨cd, hcd, rfl⟩ := googleStep_eq_some hf
    have h2 : ClickAbs doc.clickFirst := habs
    rw [hcd] at h2
    exact h2

/-- C1 (amended). Provided the base URL keeps its scheme after stripping
trailing slashes and the browser reports scheme-qualified landed-page URLs,
every URL `find_career_page` returns either is scheme-qualified or matches a
third-party job-board template — the third-party branch of strategy 1
returns the anchor's href verbatim, which need not be scheme-qualified. -/
theorem find_career_page_abs (env : Env) (b n u : List Char)
    (hb : startsHttp (rstripSlash b) = true)
    (henv : EnvAbsUrls env)
    (h : find_career_page env b n = some u) :
    startsHttp u = true ∨ anyThirdParty u = true := by
  unfold find_career_page at h
  cases hs : check_subdomain_urls env b with
  | some v =>
    rw [hs] at h
    obtain rfl : v = u := Option.some.inj h
    exact Or.inl (check_subdomain_abs hs)
  | none =>
    rw [hs] at h
    cases h123 : strategies123 env b with
    | ok r =>
      cases r with
      | some v =>
        rw [h123] at h
        obtain rfl : v = u := Option.some.inj h
        rcases strategies123_ok_some h123 with htp | ⟨g, rfl⟩
        · exact Or.inr htp
        · exact Or.inl (resolve_abs b g hb)
      | none =>
        rw [h123] at h
        cases h4 : strategy4 env b with
        | some v =>
          rw [h4] at h
          obtain rfl : v = u := Option.some.inj h
          exact Or.inl (strategy4_abs hb h4)
        | none =>
          rw [h4] at h
          exact Or.inl (strategy5_abs henv h)
    | error e =>
      rw [h123] at h
      cases h4 : strategy4 env b with
      | some v =>
        rw [h4] at h
        obtain rfl : v = u := Option.some.inj h
        exact Or.inl (strategy4_abs hb h4)
      | none =>
        rw [h4] at h
        exact Or.inl (strategy5_abs henv h)

/-! ### Concrete sample environments -/

/-- A page whose content carries the career signal and nothing else. -/
def docW : PageDoc :=
  { waitRaises := false, links := [], footerCount := 0, footerLinks := [],
    content := ofStr "Careers at Acme", h3s := [], clickFirst := Sum.inl () }

/-- A browser in which every navigation lands on `docW`. -/
def envW : Env :=
  { goto := fun _ => GotoRes.resp 200 docW, hover := fun _ => Sum.inl () }

/-- Witness for `find_career_page_abs`: in `envW` the first subdomain probe
wins and its URL is scheme-qualified. -/
theorem find_career_page_abs_witness :
    startsHttp (ofStr "https://careers.a.com") = true ∨
      anyThirdParty (ofStr "https://careers.a.com") = true :=
  find_career_page_abs envW (ofStr "https://a.com") (ofStr "Acme")
    (ofStr "https://careers.a.com") (by decide) (fun u => trivial) (by decide)

/-- A homepage whose only anchor advertises a protocol-relative Lever URL. -/
def docC1 : PageDoc :=
  { waitRaises := false,
    links := [{ text := ofStr "Jobs", href := some (ofStr "//jobs.lever.co/acme"),
                attrRaises := false }],
    footerCount := 0, footerLinks := [], content := [], h3s := [],
    clickFirst := Sum.inl () }

def envC1 : Env :=
  { goto := fun u => if u = ofStr "https://a.com" then GotoRes.resp 200 docC1
      else GotoRes.raises,
    hover := fun _ => Sum.inl () }

/-- C1 counterexample. The third-party branch returns the anchor's href as
found in the page: a protocol-relative `//jobs.lever.co/acme` href is
returned verbatim, and it is not an absolute, scheme-qualified URL. -/
theorem find_career_page_abs_cex :
    find_career_page envC1 (ofStr "https://a.com") (ofStr "Acme") =
      some (ofStr "//jobs.lever.co/acme") ∧
    startsHttp (ofStr "//jobs.lever.co/acme") = false := by
  decide

/-- C3 (amended): when the shared error handler of strategies 1-3 catches an
error, the chain does not retry strategies 2 and 3 — it falls through to
strategy 4, and to strategy 5 if strategy 4 misses. -/
theorem strategies123_error_falls_through (env : Env) (b n : List Char)
    (h0 : check_subdomain_urls env b = none)
    (he : strategies123 env b = Except.error ()) :
    (∀ u, strategy4 env b = some u → find_career_page env b n = some u) ∧
    (strategy4 env b = none → find_career_page env b n = strategy5 env n) := by
  constructor
  · intro u h4
    unfold find_career_page
    rw [h0, he, h4]
  · intro h4
    unfold find_career_page
    rw [h0, he, h4]

/-- A homepage with a hoverable `company` navigation entry (hovering
raises) and a footer containing a plain career link. -/
def docC3 : PageDoc :=
  { waitRaises := false,
    links := [{ text := ofStr "company", href := none, attrRaises := false }],
    footerCount := 1,
    footerLinks := [{ text := ofStr "careers", href := some (ofStr "/careers"),
                      attrRaises := false }],
    content := [], h3s := [], clickFirst := Sum.inl () }

def envC3 : Env :=
  { goto := fun u => if u = ofStr "https://a.com" then GotoRes.resp 200 docC3
      else GotoRes.raises,
    hover := fun _ => Sum.inl () }

/-- C3 counterexample. A hover error inside strategy 1's navigation-menu
traversal aborts strategies 2 and 3 as well: the footer scan alone would
find `https://a.com/careers`, yet the chain returns nothing because the
shared `except` of strategies 1-3 skips the footer and full-page scans. -/
theorem strategy_error_skips_footer_cex :
    envC3.hover (ofStr "company") = Sum.inl () ∧
    careerScan docC3.footerLinks (ofStr "https://a.com") =
      Except.ok (some (ofStr "https://a.com/careers")) ∧
    strategies123 envC3 (ofStr "https://a.com") = Except.error () ∧
    find_career_page envC3 (ofStr "https://a.com") (ofStr "Acme") = none := by
  decide

/-- Witness for `strategies123_error_falls_through` at the concrete
environment `envC3`. -/
theorem strategies123_error_falls_through_witness :
    find_career_page envC3 (ofStr "https://a.com") (ofStr "Acme") =
      strategy5 envC3 (ofStr "Acme") :=
  (strategies123_error_falls_through envC3 (ofStr "https://a.com") (ofStr "Acme")
    (by decide) (by decide)).2 (by decide)

/-- Witness for `find_career_page_short_circuit` at the concrete
environment `envW`, where strategy 0 wins. -/
theorem find_career_page_short_circuit_witness :
    ∃ k, (find_career_page_instr envW (ofStr "https://a.com") (ofStr "Acme")).2.2 =
        some k ∧
      (find_career_page_instr envW (ofStr "https://a.com") (ofStr "Acme")).2.1.getLast? =
        some k ∧
      stratProduces envW (ofStr "https://a.com") (ofStr "Acme") k
        (ofStr "https://careers.a.com") :=
  (find_career_page_short_circuit envW (ofStr "https://a.com") (ofStr "Acme")).2.2
    (ofStr "https://careers.a.com") (by decide)

/-! ### The per-company driver (`process_companies`, lines 293-380)

The CSV store is a list of rows; the discovery run for one company is an
oracle `runDisc` that may raise (the per-company `except` of line 362) or
return an optional URL; `time` stands for the timestamp strings. -/

structure OutRow where
  company : List Char
  website : List Char
  career_url : List Char
  timestamp : List Char
deriving DecidableEq

/-- An input row: `row.get("company", row.get("name", ""))` and
`row.get("website", row.get("url", ""))` — a `none` field is an absent
column. -/
structure InRow where
  company : Option (List Char)
  name : Option (List Char)
  website : Option (List Char)
  url : Option (List Char)
deriving DecidableEq

def inName (r : InRow) : List Char := r.company.getD (r.name.getD [])

def inSite (r : InRow) : List Char := r.website.getD (r.url.getD [])

/-- Lines 340-341: prepend `https://` to schemeless websites. -/
def coerceSite (w : List Char) : List Char :=
  if startsHttp w then w else ofStr "https://" ++ w

structure ProcEnv where
  runDisc : List Char → List Char → Except Unit (Option (List Char))
  time : List Char

/-- Lines 304-311: the companies already recorded with a truthy
career_url. -/
def processedOf (existing : List OutRow) : List (List Char) :=
  (existing.filter (fun r => decide (r.career_url ≠ []))).map OutRow.company

/-- Lines 316-324: input rows whose company is not yet processed. -/
def companiesOf (existing : List OutRow) (input : List InRow) : List InRow :=
  input.filter (fun r => !memL (inName r) (processedOf existing))

/-- Lines 345-371: one appended row per processed input row — the found URL
(or empty) on a normal return, an empty URL when the company's discovery
raised. -/
def rowFor (env : ProcEnv) (r : InRow) : OutRow :=
  match env.runDisc (inName r) (coerceSite (inSite r)) with
  | Except.ok u? => ⟨inName r, coerceSite (inSite r), u?.getD [], env.time⟩
  | Except.error _ => ⟨inName r, coerceSite (inSite r), [], env.time⟩

/-- The output store after a run: the prior rows, then one appended row per
company processed. -/
def process_companies (env : ProcEnv) (existing : List OutRow) (input : List InRow) :
    List OutRow :=
  existing ++ (companiesOf existing input).map (rowFor env)

/-- The companies for which the run attempts any navigation at all. -/
def discCalls (existing : List OutRow) (input : List InRow) : List (List Char) :=
  (companiesOf existing input).map inName

theorem rowFor_company (env : ProcEnv) (r : InRow) :
    (rowFor env r).company = inName r := by
  unfold rowFor
  cases env.runDisc (inName r) (coerceSite (inSite r)) <;> rfl

theorem companiesOf_not_processed {ex : List OutRow} {inp : List InRow} {r : InRow}
    (hr : r ∈ companiesOf ex inp) : inName r ∉ processedOf ex := by
  simp only [companiesOf, List.mem_filter] at hr
  intro hmem
  have hm := memL_iff.mpr hmem
  rw [hm] at hr
  simp at hr

/-- C5. A company stored with a non-empty career_url is never reprocessed:
it is absent from the run's discovery calls (zero navigation attempts), no
appended row carries its name, and the processed set read at startup is
exactly the set of company names whose stored career_url is non-empty. -/
theorem resume_skips_processed (env : ProcEnv) (ex : List OutRow) (inp : List InRow)
    (n : List Char) (h : n ∈ processedOf ex) :
    n ∉ discCalls ex inp ∧
    (∀ row ∈ (process_companies env ex inp).drop ex.length, row.company ≠ n) ∧
    (∀ m : List Char,
      m ∈ processedOf ex ↔ ∃ r ∈ ex, r.company = m ∧ r.career_url ≠ []) := by
  refine ⟨?_, ?_, ?_⟩
  · intro hmem
    simp only [discCalls, List.mem_map] at hmem
    obtain ⟨r, hr, hname⟩ := hmem
    exact companiesOf_not_processed hr (hname ▸ h)
  · intro row hrow
    simp only [process_companies, List.drop_left, List.mem_map] at hrow
    obtain ⟨r, hr, rfl⟩ := hrow
    rw [rowFor_company]
    intro heq
    exact companiesOf_not_processed hr (heq ▸ h)
  · intro m
    constructor
    · intro hm
      simp only [processedOf, List.mem_map, List.mem_filter] at hm
      obtain ⟨r, ⟨hr, hne⟩, rfl⟩ := hm
      exact ⟨r, hr, rfl, of_decide_eq_true hne⟩
    · rintro ⟨r, hr, rfl, hne⟩
      simp only [processedOf, List.mem_map, List.mem_filter]
      exact ⟨r, ⟨hr, decide_eq_true hne⟩, rfl⟩

/-- A store holding one finished company, an input repeating it, and an
oracle that always raises. -/
def exW : List OutRow :=
  [⟨ofStr "acme", ofStr "https://a.com", ofStr "https://a.com/careers", ofStr "t"⟩]

def inpW : List InRow := [⟨some (ofStr "acme"), none, some (ofStr "a.com"), none⟩]

def penvW : ProcEnv := ⟨fun _ _ => Except.error (), ofStr "t"⟩

/-- Witness for `resume_skips_processed` at a concrete store and input. -/
theorem resume_skips_processed_witness :
    ofStr "acme" ∉ discCalls exW inpW :=
  (resume_skips_processed penvW exW inpW (ofStr "acme") (by decide)).1

theorem filter_name_le_one (env : ProcEnv) :
    ∀ cs : List InRow, (cs.map inName).Nodup →
      ∀ m : List Char,
        ((cs.map (rowFor env)).filter (fun row => row.company == m)).length ≤ 1 := by
  intro cs
  induction cs with
  | nil => intro _ m; simp
  | cons r rest ih =>
    intro hnd m
    simp only [List.map_cons, List.nodup_cons] at hnd
    obtain ⟨hnotin, hnd2⟩ := hnd
    simp only [List.map_cons, List.filter_cons]
    by_cases hm : ((rowFor env r).company == m) = true
    · rw [if_pos hm]
      have hrm : inName r = m := by
        rw [← rowFor_company env r]
        exact beq_iff_eq.mp hm
      have hempty :
          (rest.map (rowFor env)).filter (fun row => row.company == m) = [] := by
        rw [List.filter_eq_nil_iff]
        intro row hrow
        simp only [List.mem_map] at hrow
        obtain ⟨r2, hr2, rfl⟩ := hrow
        rw [rowFor_company]
        intro hbeq
        have h2 : inName r2 = m := beq_iff_eq.mp hbeq
        exact hnotin (h2.trans hrm.symm ▸ List.mem_map_of_mem inName hr2)
      rw [hempty]
      simp
    · rw [if_neg hm]
      exact ih hnd2 m

/-- C6 (amended). Each input row that reaches processing appends exactly one
row: the store becomes the old rows plus one row per processed input row, in
order; the appended row carries the company's name and the discovered URL —
empty both when every strategy missed and when the company's discovery
raised, so no processed row is silently dropped; and when the processed
input rows carry pairwise distinct company names, at most one row per
company name is appended.  (With duplicate input names, one run appends one
row per duplicate.) -/
theorem one_row_per_processed (env : ProcEnv) (ex : List OutRow) (inp : List InRow) :
    process_companies env ex inp = ex ++ (companiesOf ex inp).map (rowFor env) ∧
    ((process_companies env ex inp).drop ex.length).length =
      (companiesOf ex inp).length ∧
    (∀ r ∈ companiesOf ex inp,
      (rowFor env r).company = inName r ∧
      (∀ u, env.runDisc (inName r) (coerceSite (inSite r)) = Except.ok (some u) →
        (rowFor env r).career_url = u) ∧
      (env.runDisc (inName r) (coerceSite (inSite r)) = Except.ok none →
        (rowFor env r).career_url = []) ∧
      (∀ e, env.runDisc (inName r) (coerceSite (inSite r)) = Except.error e →
        (rowFor env r).career_url = [])) ∧
    (((companiesOf ex inp).map inName).Nodup →
      ∀ m : List Char,
        (((companiesOf ex inp).map (rowFor env)).filter
          (fun row => row.company == m)).length ≤ 1) := by
  refine ⟨rfl, ?_, ?_, fun hnd m => filter_name_le_one env _ hnd m⟩
  · simp [process_companies, List.drop_left]
  · intro r hr
    refine ⟨rowFor_company env r, ?_, ?_, ?_⟩
    · intro u hu
      unfold rowFor
      rw [hu]
      rfl
    · intro hu
      unfold rowFor
      rw [hu]
      rfl
    · intro e he
      unfold rowFor
      rw [he]

/-- An oracle that always succeeds with the same URL, and an input row for
`acme`. -/
def penvC6 : ProcEnv := ⟨fun _ _ => Except.ok (some (ofStr "https://a.com/c")), ofStr "t"⟩

def rowA : InRow := ⟨some (ofStr "acme"), none, some (ofStr "https://a.com"), none⟩

/-- C6 counterexample. With an empty store and an input file naming `acme`
twice, one run appends two rows for `acme`: the claim's "at most one row is
appended per company per run" fails, because the processed set is computed
once at startup and never updated during the run. -/
theorem one_row_per_company_cex :
    ((process_companies penvC6 [] [rowA, rowA]).filter
      (fun r => r.company == ofStr "acme")).length = 2 := by
  decide

/-- Witness for `one_row_per_processed` at a concrete input row. -/
theorem one_row_per_processed_witness :
    (rowFor penvC6 rowA).career_url = ofStr "https://a.com/c" :=
  ((one_row_per_processed penvC6 [] [rowA]).2.2.1 rowA (by decide)).2.1
    (ofStr "https://a.com/c") (by decide)

/-! ### The job-parsing filter (`parse_job_results`, lines 242-266 of
`job_scraper.py`) -/

structure Job where
  title : Option (List Char)
  description : Option (List Char)
  location : Option (List Char)
deriving DecidableEq

def role_keywords : List (List Char) :=
  [ofStr "product manager", ofStr "product owner", ofStr "product lead"]

def seniority_keywords : List (List Char) :=
  [ofStr "senior", ofStr "group", ofStr "staff", ofStr "lead", ofStr "principal",
   ofStr "head"]

def location_keywords : List (List Char) :=
  [ofStr "bangalore", ofStr "bengaluru", ofStr "india", ofStr "remote"]

def jobTitle (j : Job) : List Char := lowerL (j.title.getD [])

def jobDescription (j : Job) : List Char := lowerL (j.description.getD [])

def jobLocation (j : Job) : List Char := lowerL (j.location.getD [])

def role_match (j : Job) : Bool :=
  role_keywords.any (fun kw => containsSub kw (jobTitle j))

def seniority_match (j : Job) : Bool :=
  seniority_keywords.any (fun kw => containsSub kw (jobTitle j))

def location_match (j : Job) : Bool :=
  location_keywords.any (fun kw =>
    containsSub kw (jobLocation j) || containsSub kw (jobDescription j))

/-- The filter of lines 246-265: all three keyword-set conditions must hold
(`if role_match and seniority_match and location_match`). -/
def filter_jobs (jobs : List Job) : List Job :=
  jobs.filter (fun j => role_match j && seniority_match j && location_match j)

/-- C8. A parsed job is retained by the filter iff all three keyword-set
conditions hold conjunctively: its title contains a role keyword, its title
contains a seniority keyword, and its location or description contains a
location keyword — AND across the three sets, never OR. -/
theorem job_filter_and_semantics (jobs : List Job) (j : Job) :
    j ∈ filter_jobs jobs ↔
      j ∈ jobs ∧
      (∃ kw ∈ role_keywords, containsSub kw (jobTitle j) = true) ∧
      (∃ kw ∈ seniority_keywords, containsSub kw (jobTitle j) = true) ∧
      (∃ kw ∈ location_keywords,
        containsSub kw (jobLocation j) = true ∨
          containsSub kw (jobDescription j) = true) := by
  simp [filter_jobs, List.mem_filter, role_match, seniority_match, location_match,
    List.any_eq_true, and_assoc]

/-! ### The job-board loader (`load_job_boards`, lines 72-90 of
`job_scraper.py`) -/

/-- A CSV cell as pandas hands it over: a string, or something else
(e.g. NaN for an empty cell). -/
inductive Cell where
  | s (v : List Char)
  | other
deriving DecidableEq

structure Board where
  company : Cell
  url : List Char
deriving DecidableEq

/-- One row of the loader: `row.iloc[0]` is the company, `row.iloc[-1]` the
candidate URL, kept only when it is a string starting with `http://` or
`https://`. -/
def rowBoard (row : List Cell) : Option Board :=
  match row.head?, row.getLast? with
  | some c, some (Cell.s u) => if startsHttp u then some ⟨c, u⟩ else none
  | _, _ => none

def load_job_boards (rows : List (List Cell)) : List Board :=
  rows.filterMap rowBoard

theorem rowBoard_eq_some {row : List Cell} {b : Board} :
    rowBoard row = some b ↔
      row.head? = some b.company ∧ row.getLast? = some (Cell.s b.url) ∧
        startsHttp b.url = true := by
  obtain ⟨bc, bu⟩ := b
  unfold rowBoard
  cases hh : row.head? with
  | none => simp
  | some c =>
    cases hl : row.getLast? with
    | none => simp
    | some cell =>
      cases cell with
      | other => simp
      | s u =>
        constructor
        · intro h
          have h2 : (if startsHttp u = true then some (Board.mk c u) else none) =
              some (Board.mk bc bu) := h
          by_cases hs : startsHttp u = true
          · rw [if_pos hs] at h2
            have h3 := Option.some.inj h2
            have hcb : c = bc := congrArg Board.company h3
            have hub : u = bu := congrArg Board.url h3
            subst hcb
            subst hub
            exact ⟨rfl, rfl, hs⟩
          · rw [if_neg hs] at h2
            simp at h2
        · rintro ⟨hc, hu, habs⟩
          obtain rfl : c = bc := Option.some.inj hc
          obtain rfl : u = bu := by
            have h3 := Option.some.inj hu
            injection h3
          show (if startsHttp u = true then some (Board.mk c u) else none) =
            some (Board.mk c u)
          rw [if_pos habs]

/-- C10. The loader takes each row's first column as the company and its
last column as the job-board URL, keeping a row iff that last cell is a
string starting with `http://` or `https://`; hence every loaded entry's
url field is such a URL, and a discovery-store row (whose last column is a
timestamp, not a URL — in particular a row recording an empty career_url)
is excluded from scraping. -/
theorem load_job_boards_spec (rows : List (List Cell)) :
    (∀ b ∈ load_job_boards rows, startsHttp b.url = true) ∧
    (∀ b : Board, b ∈ load_job_boards rows ↔
      ∃ row ∈ rows, row.head? = some b.company ∧
        row.getLast? = some (Cell.s b.url) ∧ startsHttp b.url = true) ∧
    (∀ c w cu t : List Char, startsHttp t = false →
      rowBoard [Cell.s c, Cell.s w, Cell.s cu, Cell.s t] = none) := by
  have hmem : ∀ b : Board, b ∈ load_job_boards rows ↔
      ∃ row ∈ rows, row.head? = some b.company ∧
        row.getLast? = some (Cell.s b.url) ∧ startsHttp b.url = true := by
    intro b
    rw [load_job_boards, List.mem_filterMap]
    constructor
    · rintro ⟨row, hrow, hrb⟩
      exact ⟨row, hrow, rowBoard_eq_some.mp hrb⟩
    · rintro ⟨row, hrow, hprops⟩
      exact ⟨row, hrow, rowBoard_eq_some.mpr hprops⟩
  refine ⟨?_, hmem, ?_⟩
  · intro b hb
    obtain ⟨row, -, -, -, hs⟩ := (hmem b).mp hb
    exact hs
  · intro c w cu t ht
    show (if startsHttp t = true then some (Board.mk (Cell.s c) t) else none) = none
    simp [ht]

/-- Witness for `load_job_boards_spec`: a discovery-store row whose last
column is a timestamp contributes no job board. -/
theorem load_job_boards_spec_witness :
    rowBoard [Cell.s (ofStr "acme"), Cell.s (ofStr "https://a.com"), Cell.s [],
      Cell.s (ofStr "2025-01-01 00:00:00")] = none :=
  (load_job_boards_spec []).2.2 (ofStr "acme") (ofStr "https://a.com") []
    (ofStr "2025-01-01 00:00:00") (by decide)

end Ari
